import Mathlib

/-!
Verification of the Prism host core: fleet manifest, provisioning/removal,
health probe, and the periodic update-reconciliation loop.

The Go sources are shallowly embedded: pure helpers become Lean functions,
effectful calls (OS users, launchctl, HTTP, the filesystem) are passed in as
deterministic oracles, and the externally visible side effects of one call
are recorded as an explicit event trace.  Machine integers are modelled as
`Int`/`Nat` (ports, counts and HTTP statuses stay far below any overflow
boundary in this code).
-/

namespace Prism

/-! ## Go string helpers (package `strings` / `strconv`) -/

/-- Go `strings.HasPrefix(s, pfx)`. -/
def hasPre (s pfx : String) : Bool := pfx.data.isPrefixOf s.data

/-- Go `strings.TrimPrefix(s, pfx)`: drops `pfx` when present, else returns
`s` unchanged. -/
def trimPre (s pfx : String) : String :=
  if hasPre s pfx then ⟨s.data.drop pfx.data.length⟩ else s

/-- Go `strings.TrimSpace`: drops leading and trailing whitespace. -/
def trimSpace (s : String) : String :=
  ⟨((s.data.dropWhile Char.isWhitespace).reverse.dropWhile Char.isWhitespace).reverse⟩

/-- Accumulator for `atoi?`: consumes decimal digits, failing on any other
character. -/
def digitsAcc? : List Char → Nat → Option Nat
  | [], acc => some acc
  | c :: cs, acc =>
      if c.isDigit then digitsAcc? cs (acc * 10 + (c.toNat - 48)) else none

/-- Go `strconv.Atoi`: optional sign followed by at least one decimal digit.
Returns `none` where Go returns an error. -/
def atoi? (s : String) : Option Int :=
  match s.data with
  | [] => none
  | '-' :: rest =>
      match rest with
      | [] => none
      | _ => (digitsAcc? rest 0).map fun n => -(n : Int)
  | '+' :: rest =>
      match rest with
      | [] => none
      | _ => (digitsAcc? rest 0).map fun n => (n : Int)
  | l => (digitsAcc? l 0).map fun n => (n : Int)

/-- Splits `l` at the first occurrence of `sep`: returns the part before it
and, when `sep` occurs, the remainder after it. -/
def breakAtChar (sep : Char) : List Char → List Char × Option (List Char)
  | [] => ([], none)
  | c :: cs =>
      if c == sep then ([], some cs)
      else
        let (p, r) := breakAtChar sep cs
        (c :: p, r)

/-- Go `strings.SplitN(s, sep, n)` for single-character separators: at most
`n` pieces, the last piece keeping every remaining separator. -/
def splitListN (sep : Char) : Nat → List Char → List (List Char)
  | 0, s => [s]
  | 1, s => [s]
  | n + 2, s =>
      match breakAtChar sep s with
      | (p, none) => [p]
      | (p, some rest) => p :: splitListN sep (n + 1) rest

/-! ## Data model (`internal/infra/state` and `internal/infra/config`) -/

/-- `state.User`: one managed macOS user. -/
structure User where
  name : String
  port : Int
  subdomain : String
  deriving DecidableEq, Repr

/-- `state.State`: the persisted fleet manifest. -/
structure State where
  initialized : Bool
  users : List User
  deriving DecidableEq, Repr

/-- The slice of `config.Config` the host core consults (`globals.machine_id`,
`globals.default_password`, `globals.service.start_port`,
`globals.service.archive_url`).  Fields the embedded functions never read
(frpc server, domain suffix, nexus base URL) are omitted. -/
structure Config where
  machineID : String
  defaultPassword : String
  startPort : Int
  archiveURL : String
  deriving DecidableEq, Repr

/-! ## Manifest store: `state.Load` -/

/-- Outcome of `os.ReadFile` as `state.Load` distinguishes it. -/
inductive ReadResult where
  | notExist
  | readErr (msg : String)
  | content (data : String)
  deriving DecidableEq, Repr

/-- `state.Load(path)`.  The JSON decoder (`encoding/json.Unmarshal`) is
standard-library code, passed in abstractly as `decode`; `none` stands for a
decode error.  Mirrors the source branch for branch: empty path is an error,
a missing file and a zero-length file both yield the zero `State`, any other
read error and any decode failure are errors. -/
def stateLoad (decode : String → Option State) (read : ReadResult)
    (path : String) : Except String State :=
  if path = "" then .error "state path is empty"
  else
    match read with
    | .notExist => .ok { initialized := false, users := [] }
    | .readErr m => .error ("read state: " ++ m)
    | .content data =>
        if data.length = 0 then .ok { initialized := false, users := [] }
        else
          match decode data with
          | none => .error "decode state: unmarshal failed"
          | some s => .ok s

/-! ## Provisioning engine (`internal/infra/host`, provisioning file) -/

/-- Oracle for the OS-level calls made by `ProvisionUsers` / `AddUsers`.
Each field stands for one helper in the source: `ensureSecretsFile`,
`ensureServiceArchive`, `systemUserExists`, `generatePassword`,
`createSystemUser`, `appendPassword` and `ensurePerUserFiles` (which, on
success, yields the generated subdomain of the new member; the member record
it returns is `{name, port, subdomain}` as built in the source). -/
structure ProvEnv where
  secretsFile : Except String String
  archiveDir : Except String String
  userExists : String → Except String Bool
  genPassword : String → Except String String
  createUser : String → String → Except String Unit
  appendSecret : String → String → String → Except String Unit
  perUserFiles : String → Int → Except String String

/-- The shared per-member loop body of `ProvisionUsers` (indices `1..N`) and
`AddUsers` (indices `startIndex..startIndex+N-1`); the two Go loops are
textually identical up to the index range.  For index `idx`: build the
username `machineID-idx` and port `startPort + idx - 1`, fail if the OS
identity already exists, generate a password, create the identity, append to
the secrets file, materialize per-user files, and append the member. -/
def provisionLoop (env : ProvEnv) (cfg : Config) (secretsFile machineID : String) :
    Int → Nat → List User → Except String (List User)
  | _, 0, acc => .ok acc
  | idx, n + 1, acc => do
      let username := machineID ++ "-" ++ toString idx
      let localPort := cfg.startPort + idx - 1
      let exists_ ← env.userExists username
      if exists_ then
        .error ("user " ++ username ++ " already exists")
      else do
        let password ← env.genPassword cfg.defaultPassword
        let _ ← env.createUser username password
        let _ ← env.appendSecret secretsFile username password
        let subdomain ← env.perUserFiles username localPort
        provisionLoop env cfg secretsFile machineID (idx + 1) n
          (acc ++ [{ name := username, port := localPort, subdomain := subdomain }])

/-- `ProvisionUsers`: bulk-initial provisioning.  Rejects a non-positive
count, a non-empty manifest, a blank machine id and a blank output dir, then
runs the member loop from index 1 on an empty accumulator (`st.Users[:0]`)
and returns the manifest rebuilt from the loop result with
`Initialized = true`, together with the secrets-file path.  The trailing
best-effort `RecordInitialVersion` call logs only and cannot change the
returned state or error, so it is not modelled here. -/
def ProvisionUsers (env : ProvEnv) (cfg : Config) (st : State) (userCount : Int)
    (outputDir _prismPath : String) : Except String (State × String) :=
  if userCount ≤ 0 then .error "userCount must be positive"
  else if st.users.length > 0 then
    .error "users already provisioned; please use the add-users flow instead"
  else
    let machineID := trimSpace cfg.machineID
    if machineID = "" then .error "globals.machine_id is empty"
    else if outputDir = "" then .error "outputDir is empty"
    else do
      let secretsFile ← env.secretsFile
      let _ ← env.archiveDir
      let users ← provisionLoop env cfg secretsFile machineID 1 userCount.toNat []
      .ok ({ initialized := true, users := users }, secretsFile)

/-- The `maxIndex` scan of `AddUsers`: over all existing members whose name
starts with `machineID ++ "-"`, the largest positive integer suffix
(`strconv.Atoi` failures and non-positive values are skipped); 0 when no
member matches. -/
def maxIndexOf (machineID : String) (users : List User) : Int :=
  users.foldl
    (fun acc u =>
      let pfx := machineID ++ "-"
      if hasPre u.name pfx then
        match atoi? (trimPre u.name pfx) with
        | none => acc
        | some idx => if idx ≤ 0 then acc else if idx > acc then idx else acc
      else acc)
    0

/-- `AddUsers`: incremental provisioning.  Rejects a non-positive count and
an empty manifest, scans the manifest for the highest matching numeric
suffix, and runs the member loop from `maxIndex + 1` appending to the
existing member list; the result carries `Initialized = true`. -/
def AddUsers (env : ProvEnv) (cfg : Config) (st : State) (userCount : Int)
    (outputDir _prismPath : String) : Except String (State × String) :=
  if userCount ≤ 0 then .error "userCount must be positive"
  else if st.users.length = 0 then
    .error "no existing users in state; please run initial setup before adding users"
  else
    let machineID := trimSpace cfg.machineID
    if machineID = "" then .error "globals.machine_id is empty"
    else if outputDir = "" then .error "outputDir is empty"
    else do
      let secretsFile ← env.secretsFile
      let _ ← env.archiveDir
      let startIndex := maxIndexOf machineID st.users + 1
      let users ← provisionLoop env cfg secretsFile machineID startIndex
        userCount.toNat st.users
      .ok ({ initialized := true, users := users }, secretsFile)

/-! ## Removal engine and event traces -/

/-- Observable side effects of one host-core call.  `unregisterDaemons` is a
`RemoveUserLaunchDaemons` attempt (bootout both daemons, delete both plist
files; errors swallowed), `deleteIdentity` a `sysadminctl -deleteUser`
attempt, `removeHome` the best-effort `os.RemoveAll` of the home directory,
`download` an `ensureServiceArchive` download/extract attempt, `sync` a
completed `syncServiceDir` into one member's service directory, `chown` a
completed `chownRecursive`, `restart` a restart signal issued to one
member's daemons, `writeLedger` a `writeCurrentVersion` attempt, and
`httpAttempt` one request to the release API. -/
inductive Event where
  | unregisterDaemons (u : String)
  | deleteIdentity (u : String)
  | removeHome (u : String)
  | download
  | sync (u : String)
  | chown (u : String)
  | restart (u : String)
  | writeLedger (tag : String)
  | httpAttempt (i : Nat)
  deriving DecidableEq, Repr

/-- Oracle for `RemoveUser`'s one fallible OS call
(`sysadminctl -deleteUser`; the value is the command output). -/
structure RemoveEnv where
  deleteUser : String → Except String String

/-- Position of the first member with the given name, mirroring the linear
scan with early break in `RemoveUser`. -/
def indexOfName : List User → String → Option Nat
  | [], _ => none
  | u :: us, n =>
      if u.name = n then some 0 else (indexOfName us n).map (· + 1)

/-- The manifest list with the entry at position `idx` dropped, as built by
`RemoveUser`'s copy loop. -/
def dropAtIdx : List User → Nat → List User
  | [], _ => []
  | _ :: us, 0 => us
  | u :: us, n + 1 => u :: dropAtIdx us n

/-- `RemoveUser`: validates the username (non-blank, machine prefix,
present in the manifest), then unregisters the member's LaunchDaemons
(best-effort), deletes the OS identity (fatal on failure), removes the home
directory (best-effort), and returns the manifest without the member and
with `Initialized = true`.  The first component is the event trace. -/
def RemoveUser (env : RemoveEnv) (cfg : Config) (st : State)
    (username outputDir : String) : List Event × Except String State :=
  if trimSpace username = "" then ([], .error "username is empty")
  else
    let machineID := trimSpace cfg.machineID
    if machineID = "" then ([], .error "globals.machine_id is empty")
    else if outputDir = "" then ([], .error "outputDir is empty")
    else
      let pfx := machineID ++ "-"
      if hasPre username pfx = false then
        ([], .error ("user " ++ username ++ " does not belong to machine_id " ++ machineID))
      else
        match indexOfName st.users username with
        | none => ([], .error ("user " ++ username ++ " not found in state"))
        | some idx =>
            match env.deleteUser username with
            | .error e =>
                ([Event.unregisterDaemons username, Event.deleteIdentity username],
                 .error ("delete user " ++ username ++ ": " ++ e))
            | .ok _ =>
                ([Event.unregisterDaemons username, Event.deleteIdentity username,
                  Event.removeHome username],
                 .ok { initialized := true, users := dropAtIdx st.users idx })

/-! ## Remote release resolver (`autoupdate.go`) -/

/-- Retry policy constants of `autoupdate.go` (`maxRetries`,
`initialBackoff`, `maxBackoff`); delays are in seconds. -/
def maxRetries : Nat := 3

def initialBackoff : Nat := 1

def maxBackoff : Nat := 30

/-- One HTTP exchange with the release API, as `doFetchLatestRelease`
distinguishes it: a transport failure, or a response with a status code, a
flag for whether the body decodes as a release, the release's tag and its
asset names. -/
inductive HTTPOutcome where
  | netErr (msg : String)
  | response (status : Nat) (decodeOk : Bool) (tagName : String) (assets : List String)
  deriving DecidableEq, Repr

/-- `doFetchLatestRelease`, single attempt: network errors, HTTP 429 and 5xx
are retryable; any other non-2xx status, a body that fails to decode, and a
decoded release lacking the requested asset are fatal; otherwise the tag is
returned.  Result is `(tag-or-error, retryable)`. -/
def doFetchLatestRelease (outcome : HTTPOutcome) (assetName : String) :
    Except String String × Bool :=
  match outcome with
  | .netErr m => (.error m, true)
  | .response status decodeOk tagName assets =>
      if status = 429 then (.error "GitHub API rate limited (429)", true)
      else if 500 ≤ status then (.error "GitHub API server error", true)
      else if status < 200 ∨ 300 ≤ status then
        (.error "GitHub API returned non-2xx status", false)
      else if decodeOk = false then (.error "decode release", false)
      else if assets.contains assetName then (.ok tagName, false)
      else (.error ("asset " ++ assetName ++ " not found in release " ++ tagName), false)

/-- Parsed form of a `gh://owner/repo/asset[@tag]` locator. -/
structure GhSpec where
  owner : String
  repo : String
  assetName : String
  fixedTag : String
  deriving DecidableEq, Repr

/-- The locator parsing prologue of `fetchLatestRelease`: strip the `gh://`
scheme, split into exactly three `/`-separated parts, and split the asset
part at the first `@` into asset name and (space-trimmed) pinned tag; an
absent `@` leaves the tag empty. -/
def parseGhURL (ghURL : String) : Option GhSpec :=
  let specStr := trimPre ghURL "gh://"
  match splitListN '/' 3 specStr.data with
  | [o, r, a] =>
      match breakAtChar '@' a with
      | (an, none) =>
          some { owner := ⟨o⟩, repo := ⟨r⟩, assetName := ⟨an⟩, fixedTag := "" }
      | (an, some rest) =>
          some { owner := ⟨o⟩, repo := ⟨r⟩, assetName := ⟨an⟩,
                 fixedTag := trimSpace ⟨rest⟩ }
  | _ => none

/-- Oracle for the resolver's retry loop: the HTTP outcome of each attempt
(numbered from 0) and whether the surrounding context is cancelled during
the backoff wait that precedes a given attempt. -/
structure FetchEnv where
  attempt : Nat → HTTPOutcome
  cancelBefore : Nat → Bool

/-- Result of `fetchLatestRelease`: the tag (or error), the backoff delays
actually waited (in order), the number of HTTP attempts performed, and
whether the call ended by context cancellation mid-wait. -/
structure FetchResult where
  result : Except String String
  delays : List Nat
  attempts : Nat
  canceled : Bool
  deriving Repr

/-- The retry loop of `fetchLatestRelease`: Go's
`for attempt := 0; attempt <= maxRetries; attempt++`, with `fuel` the number
of remaining iterations.  Before every attempt but the first the loop waits
`backoff` (abandoning the call if the context is cancelled mid-wait) and
then doubles the backoff, capping it at `maxBackoff`; a successful attempt
returns its tag, a fatal error returns immediately, a retryable error is
remembered and retried until the fuel runs out. -/
def fetchLoop (env : FetchEnv) (assetName : String) :
    Nat → Nat → Nat → List Nat → Nat → String → FetchResult
  | 0, _, _, delays, attempts, lastErr =>
      { result := .error ("after 3 retries: " ++ lastErr), delays := delays,
        attempts := attempts, canceled := false }
  | fuel + 1, attempt, backoff, delays, attempts, _lastErr =>
      if 0 < attempt ∧ env.cancelBefore attempt = true then
        { result := .error "context canceled", delays := delays,
          attempts := attempts, canceled := true }
      else
        let delays' := if 0 < attempt then delays ++ [backoff] else delays
        let backoff' :=
          if 0 < attempt then
            if maxBackoff < backoff * 2 then maxBackoff else backoff * 2
          else backoff
        match doFetchLatestRelease (env.attempt attempt) assetName with
        | (.ok tag, _) =>
            { result := .ok tag, delays := delays', attempts := attempts + 1,
              canceled := false }
        | (.error e, retryable) =>
            if retryable then
              fetchLoop env assetName fuel (attempt + 1) backoff' delays'
                (attempts + 1) e
            else
              { result := .error e, delays := delays', attempts := attempts + 1,
                canceled := false }

/-- `fetchLatestRelease`: parse the locator (error on a malformed one);
for a pinned locator return the empty-string sentinel immediately, with no
HTTP attempt; otherwise run the bounded retry loop starting at attempt 0
with the initial backoff. -/
def fetchLatestRelease (env : FetchEnv) (ghURL : String) : FetchResult :=
  match parseGhURL ghURL with
  | none =>
      { result := .error ("invalid gh:// URL: " ++ ghURL), delays := [],
        attempts := 0, canceled := false }
  | some g =>
      if g.fixedTag ≠ "" then
        { result := .ok "", delays := [], attempts := 0, canceled := false }
      else
        fetchLoop env g.assetName (maxRetries + 1) 0 initialBackoff [] 0 ""

/-! ## Health prober (`services_status.go`) -/

/-- `UserServiceStatus` (the `Detail` string, a join of log fragments that
no caller branches on, is omitted). -/
structure UserServiceStatus where
  name : String
  port : Int
  subdomain : String
  serviceDirOK : Bool
  portListening : Bool
  deriving DecidableEq, Repr

/-- Probe oracle for `CheckUserServices`: whether the member's service
directory stats as a directory, and whether a TCP connect to the member's
port succeeds. -/
structure ProbeEnv where
  dirProbe : String → Bool
  portProbe : Int → Bool

/-- `CheckUserServices`: one status per manifest member, in manifest order;
the directory check and the port check are independent, the port is probed
only when positive, and no member's probe failure affects the others (the
Go function's error value is constantly nil). -/
def checkUserServices (env : ProbeEnv) (st : State) : List UserServiceStatus :=
  st.users.map fun u =>
    { name := u.name, port := u.port, subdomain := u.subdomain,
      serviceDirOK := env.dirProbe u.name,
      portListening := if (0 : Int) < u.port then env.portProbe u.port else false }

/-- Go's `statusByUser` map build plus lookup: for a name, the last status
in the list carrying it (map insertion order), if any. -/
def statusLookup (l : List UserServiceStatus) (n : String) : Option UserServiceStatus :=
  l.foldl (fun acc s => if s.name = n then some s else acc) none

/-! ## Update orchestrator (`autoupdate.go`) and member code sync -/

/-- Oracle for one reconciliation cycle: results of `config.Load` and
`state.Load`, the HTTP behaviour of the resolver, the outcome of
`readCurrentVersion` (the ledger), the archive download/extract
(`ensureServiceArchive`, after the cache purge), the health probes, the
per-member OS effects (`os.Stat` of the service dir, `syncServiceDir`,
`chownRecursive`, daemon restart), and `writeCurrentVersion`. -/
structure UpdateEnv where
  loadConfig : Except String Config
  loadState : Except String State
  fetch : FetchEnv
  readVersion : ReadResult
  archive : Except String Unit
  probe : ProbeEnv
  dirExists : String → Bool
  syncOK : String → Bool
  chownOK : String → Bool
  restartOK : String → Bool
  writeVersion : String → Except String Unit

/-- The per-member body of `performUpdate`'s loop: skip the member when its
service directory is missing, when the sync fails, or when the chown fails;
otherwise the member counts as updated, and additionally receives a restart
signal exactly when its probed status reports the directory OK and the port
listening (a failed restart un-counts the member but the signal was
issued).  Returns the member's events and its contribution (0 or 1) to
`updatedCount`. -/
def performUpdateUser (env : UpdateEnv)
    (statusOf : String → Option UserServiceStatus) (u : User) :
    List Event × Nat :=
  if env.dirExists u.name = false then ([], 0)
  else if env.syncOK u.name = false then ([], 0)
  else if env.chownOK u.name = false then ([Event.sync u.name], 0)
  else
    match statusOf u.name with
    | some s =>
        if s.serviceDirOK = true ∧ s.portListening = true then
          if env.restartOK u.name then
            ([Event.sync u.name, Event.chown u.name, Event.restart u.name], 1)
          else
            ([Event.sync u.name, Event.chown u.name, Event.restart u.name], 0)
        else ([Event.sync u.name, Event.chown u.name], 1)
    | none => ([Event.sync u.name, Event.chown u.name], 1)

/-- `performUpdate`: purge the cached archive and re-download/extract it
(fatal on failure), pre-probe every member with `CheckUserServices`, then
process members sequentially, summing `updatedCount`; per-member failures
skip that member only. -/
def performUpdate (env : UpdateEnv) (st : State) : List Event × Except String Nat :=
  match env.archive with
  | .error e => ([Event.download], .error ("download/extract archive: " ++ e))
  | .ok _ =>
      let statuses := checkUserServices env.probe st
      let statusOf := statusLookup statuses
      let (evs, count) :=
        st.users.foldl
          (fun (acc : List Event × Nat) u =>
            let r := performUpdateUser env statusOf u
            (acc.1 ++ r.1, acc.2 + r.2))
          ([], 0)
      (Event.download :: evs, .ok count)

/-- `checkAndUpdate`: one reconciliation cycle.  Load config and manifest;
an empty manifest or a non-`gh://` locator ends the cycle as a no-op;
resolve the latest tag (a fatal resolver error ends the cycle without
touching the ledger; the empty-string sentinel of a pinned locator is a
no-op); a missing ledger file suppresses the update; an up-to-date ledger is
a no-op; otherwise run `performUpdate` and advance the ledger only when at
least one member was updated — zero successes is a hard failure with no
ledger write. -/
def checkAndUpdate (env : UpdateEnv) : List Event × Except String Unit :=
  match env.loadConfig with
  | .error e => ([], .error ("load config: " ++ e))
  | .ok cfg =>
      match env.loadState with
      | .error e => ([], .error ("load state: " ++ e))
      | .ok st =>
          if st.users.length = 0 then ([], .ok ())
          else
            let archiveURL := trimSpace cfg.archiveURL
            if archiveURL = "" then
              ([], .error "globals.service.archive_url is empty")
            else if hasPre archiveURL "gh://" = false then ([], .ok ())
            else
              let fr := fetchLatestRelease env.fetch archiveURL
              let fetchEvs := (List.range fr.attempts).map Event.httpAttempt
              match fr.result with
              | .error e => (fetchEvs, .error ("fetch latest release: " ++ e))
              | .ok latestTag =>
                  if latestTag = "" then (fetchEvs, .ok ())
                  else
                    match env.readVersion with
                    | .notExist => (fetchEvs, .ok ())
                    | .readErr m => (fetchEvs, .error ("read current version: " ++ m))
                    | .content data =>
                        let currentTag := trimSpace data
                        if currentTag = latestTag then (fetchEvs, .ok ())
                        else
                          let pu := performUpdate env st
                          match pu.2 with
                          | .error e =>
                              (fetchEvs ++ pu.1, .error ("perform update: " ++ e))
                          | .ok updatedCount =>
                              if updatedCount = 0 then
                                (fetchEvs ++ pu.1,
                                 .error "no users were updated successfully")
                              else
                                match env.writeVersion latestTag with
                                | .error e =>
                                    (fetchEvs ++ pu.1 ++ [Event.writeLedger latestTag],
                                     .error ("write current version: " ++ e))
                                | .ok _ =>
                                    (fetchEvs ++ pu.1 ++ [Event.writeLedger latestTag],
                                     .ok ())

/-- The interactive update path `UpdateUserCode`'s per-member loop: unlike
`performUpdate` it aborts the whole call on the first member whose service
directory is missing or whose sync, chown or restart fails; a member whose
status reports the port not listening is synced and chowned but receives no
restart signal. -/
def updateUserCodeLoop (env : UpdateEnv)
    (statusOf : String → Option UserServiceStatus) :
    List User → List Event → List Event × Except String Unit
  | [], evs => (evs, .ok ())
  | u :: us, evs =>
      if env.dirExists u.name = false then
        (evs, .error ("service directory does not exist for user " ++ u.name))
      else if env.syncOK u.name = false then
        (evs, .error ("sync service directory for " ++ u.name))
      else if env.chownOK u.name = false then
        (evs ++ [Event.sync u.name],
         .error ("chown service directory for " ++ u.name))
      else
        match statusOf u.name with
        | some s =>
            if s.serviceDirOK = true ∧ s.portListening = true then
              if env.restartOK u.name then
                updateUserCodeLoop env statusOf us
                  (evs ++ [Event.sync u.name, Event.chown u.name, Event.restart u.name])
              else
                (evs ++ [Event.sync u.name, Event.chown u.name, Event.restart u.name],
                 .error ("restart services for " ++ u.name))
            else
              updateUserCodeLoop env statusOf us
                (evs ++ [Event.sync u.name, Event.chown u.name])
        | none =>
            updateUserCodeLoop env statusOf us
              (evs ++ [Event.sync u.name, Event.chown u.name])

/-- `UpdateUserCode`: rejects an empty manifest and a blank output dir,
refreshes the service archive (fatal on failure), pre-probes all members,
runs the per-member loop, and on success returns the state with
`Initialized = true` (the member list is unchanged).  `env.archive` stands
for `refreshServiceArchive` here (same download path after a cache purge). -/
def UpdateUserCode (env : UpdateEnv) (st : State) (outputDir : String) :
    List Event × Except String State :=
  if st.users.length = 0 then
    ([], .error "no existing users in state; nothing to update")
  else if trimSpace outputDir = "" then ([], .error "outputDir is empty")
  else
    match env.archive with
    | .error e => ([Event.download], .error ("refresh service archive: " ++ e))
    | .ok _ =>
        let statuses := checkUserServices env.probe st
        let statusOf := statusLookup statuses
        let r := updateUserCodeLoop env statusOf st.users []
        match r.2 with
        | .error e => (Event.download :: r.1, .error e)
        | .ok _ =>
            (Event.download :: r.1, .ok { initialized := true, users := st.users })

/-! ## Member code sync (`per_user_files.go`, `syncServiceDir`) -/

/-- The exact argument list `syncServiceDir` passes to `rsync`. -/
def syncServiceDirArgs (src dst : String) : List String :=
  ["-a",
   "--exclude", "config.json",
   "--exclude", "frpc.toml",
   "--exclude", "prism-host",
   "--exclude", "prism",
   src ++ "/", dst ++ "/"]

/-- The exclusion patterns an `rsync` argument list carries: the value
following each `--exclude` flag. -/
def excludesOfArgs : List String → List String
  | [] => []
  | "--exclude" :: v :: rest => v :: excludesOfArgs rest
  | _ :: rest => excludesOfArgs rest

/-- Modelled from the spec: the effect of the external `rsync -a` binary
(which is not part of this repository) on a directory viewed as a map from
relative path to content.  Archive mode copies every source entry over the
destination except the excluded paths, which are left untouched; without
`--delete` (which `syncServiceDir` does not pass) destination-only entries
are also kept. -/
def rsyncEffect (excl : List String) (src dst : String → Option String) :
    String → Option String :=
  fun f =>
    if excl.contains f then dst f
    else
      match src f with
      | some v => some v
      | none => dst f

/-- The directory-level effect of `syncServiceDir src dst`: `rsync -a` with
exactly the exclusions carried by `syncServiceDirArgs`. -/
def syncServiceDirEffect (src dst : String → Option String) :
    String → Option String :=
  rsyncEffect (excludesOfArgs (syncServiceDirArgs "src" "dst")) src dst

/-! ## Concrete environments used to instantiate the theorems -/

/-- An always-healthy OS layer for provisioning: every check and mutation
succeeds, no OS identity pre-exists, `pw` gives generated passwords and
`sub` the generated subdomains. -/
def healthyProvEnv (secretsName extractDir : String) (pw : String → String)
    (sub : String → Int → String) : ProvEnv :=
  { secretsFile := .ok secretsName
    archiveDir := .ok extractDir
    userExists := fun _ => .ok false
    genPassword := fun s => .ok (pw s)
    createUser := fun _ _ => .ok ()
    appendSecret := fun _ _ _ => .ok ()
    perUserFiles := fun u p => .ok (sub u p) }

/-- A fully concrete healthy provisioning environment. -/
def okProvEnv : ProvEnv :=
  healthyProvEnv "secrets" "extract" (fun _ => "pw") (fun _ _ => "sd")

/-- Machine `m`, ports from 100, a non-pinned `gh://` locator. -/
def cfgM : Config :=
  { machineID := "m", defaultPassword := "", startPort := 100,
    archiveURL := "gh://o/r/a" }

/-- Removal environment whose `sysadminctl -deleteUser` succeeds. -/
def remEnvOk : RemoveEnv := { deleteUser := fun _ => .ok "" }

/-- The member a healthy provisioning loop creates at index `idx`. -/
def mkUserAt (machineID : String) (startPort : Int) (sub : String → Int → String)
    (idx : Int) : User :=
  { name := machineID ++ "-" ++ toString idx, port := startPort + idx - 1,
    subdomain := sub (machineID ++ "-" ++ toString idx) (startPort + idx - 1) }

/-- Probe reporting every directory present and exactly the ports in `l`
listening. -/
def probeListening (l : List Int) : ProbeEnv :=
  { dirProbe := fun _ => true, portProbe := fun p => l.contains p }

/-- A reconciliation environment: one-member manifest on port 100, ledger at
`v1`, resolver offering `v2`, every OS effect succeeding, with the listening
ports given by `l`. -/
def updEnv (l : List Int) : UpdateEnv :=
  { loadConfig := .ok cfgM
    loadState := .ok { initialized := true, users := [⟨"m-1", 100, "s1"⟩] }
    fetch := { attempt := fun _ => .response 200 true "v2" ["a"],
               cancelBefore := fun _ => false }
    readVersion := .content "v1"
    archive := .ok ()
    probe := probeListening l
    dirExists := fun _ => true
    syncOK := fun _ => true
    chownOK := fun _ => true
    restartOK := fun _ => true
    writeVersion := fun _ => .ok () }

/-- Like `updEnv` but with a pinned locator `gh://o/r/a@v1`. -/
def updEnvPinned : UpdateEnv :=
  { updEnv [100] with
    loadConfig := .ok { cfgM with archiveURL := "gh://o/r/a@v1" } }

/-- Like `updEnv` but with every member's sync failing, so that no member
can be updated successfully. -/
def updEnvAllSyncFail : UpdateEnv :=
  { updEnv [100] with syncOK := fun _ => false }

/-- Resolver network behaviour: HTTP 429 on the first three attempts, then a
success carrying tag `v2` with asset `a` present; never cancelled. -/
def feScenario : FetchEnv :=
  { attempt := fun i =>
      if i < 3 then .response 429 true "" [] else .response 200 true "v2" ["a"],
    cancelBefore := fun _ => false }

/-- A bundle tree holding a new `config.json` and a new `app.js`. -/
def srcTree : String → Option String :=
  fun f =>
    if f = "config.json" then some "newcfg"
    else if f = "app.js" then some "newapp" else none

/-- A member service directory holding an instance `config.json`, an
instance `frpc.toml` and an old `app.js`. -/
def dstTree : String → Option String :=
  fun f =>
    if f = "config.json" then some "oldcfg"
    else if f = "frpc.toml" then some "oldfrpc"
    else if f = "app.js" then some "oldapp" else none

/-! ## C8 — manifest `Load` on a missing or malformed file -/

/-- C8, counterexample: the empty string is malformed input for the JSON
decoder (Go's `json.Unmarshal` rejects empty input, which is why `Load`
special-cases it), yet `Load` on an existing zero-length file returns the
empty manifest with no error rather than a decode error. -/
theorem stateLoad_empty_content_no_error :
    (fun _ => (none : Option State)) "" = none ∧
    stateLoad (fun _ => none) (.content "") "state.json" =
      .ok { initialized := false, users := [] } :=
  ⟨rfl, rfl⟩

/-- C8 (amended): `Load` returns the empty manifest and no error when the
file does not exist, and a decode error (with no manifest contents) when the
file's content is non-empty and malformed; a zero-length file is treated
like a missing one. -/
theorem stateLoad_missing_file_and_decode_error (decode : String → Option State)
    (path data : String) (hpath : path ≠ "") (hdata : data ≠ "")
    (hdec : decode data = none) :
    stateLoad decode .notExist path = .ok { initialized := false, users := [] } ∧
    stateLoad decode (.content data) path =
      .error "decode state: unmarshal failed" := by
  have hlen : data.length ≠ 0 := by
    intro h
    exact hdata (by cases data with
      | mk l => cases l with
        | nil => rfl
        | cons c cs => simp [String.length] at h)
  constructor
  · simp [stateLoad, hpath]
  · simp [stateLoad, hpath, hlen, hdec]

/-- C8 witness. -/
theorem stateLoad_missing_file_and_decode_error_witness :
    stateLoad (fun _ => none) .notExist "state.json" =
      .ok { initialized := false, users := [] } ∧
    stateLoad (fun _ => none) (.content "notjson") "state.json" =
      .error "decode state: unmarshal failed" :=
  stateLoad_missing_file_and_decode_error (fun _ => none) "state.json" "notjson"
    (by decide) (by decide) rfl

/-! ## C3 — daemons are unregistered before the OS identity is deleted -/

/-- C3: in every `RemoveUser` run, whenever the OS-identity deletion is
attempted, the trace begins with the daemon-unregistration attempt
immediately followed by that deletion attempt — the identity is never
deleted without a prior unregistration attempt. -/
theorem removeUser_unregisters_before_delete (env : RemoveEnv) (cfg : Config)
    (st : State) (username outputDir : String)
    (h : Event.deleteIdentity username ∈ (RemoveUser env cfg st username outputDir).1) :
    (RemoveUser env cfg st username outputDir).1.take 2 =
      [Event.unregisterDaemons username, Event.deleteIdentity username] := by
  have shape : (RemoveUser env cfg st username outputDir).1 = [] ∨
      (RemoveUser env cfg st username outputDir).1 =
        [Event.unregisterDaemons username, Event.deleteIdentity username] ∨
      (RemoveUser env cfg st username outputDir).1 =
        [Event.unregisterDaemons username, Event.deleteIdentity username,
         Event.removeHome username] := by
    unfold RemoveUser
    repeat' split
    all_goals
      by_cases hm : trimSpace cfg.machineID = "" <;>
        by_cases hp : hasPre username (trimSpace cfg.machineID ++ "-") = false <;>
          simp [hm, hp]
  rcases shape with h0 | h2 | h3
  · rw [h0] at h; simp at h
  · rw [h2]; rfl
  · rw [h3]; rfl

/-- C3 witness. -/
theorem removeUser_unregisters_before_delete_witness :
    Event.deleteIdentity "m-3" ∈
      (RemoveUser remEnvOk cfgM
        { initialized := true,
          users := [⟨"m-1", 100, "s1"⟩, ⟨"m-2", 101, "s2"⟩, ⟨"m-3", 102, "s3"⟩] }
        "m-3" "out").1 ∧
    (RemoveUser remEnvOk cfgM
        { initialized := true,
          users := [⟨"m-1", 100, "s1"⟩, ⟨"m-2", 101, "s2"⟩, ⟨"m-3", 102, "s3"⟩] }
        "m-3" "out").1.take 2 =
      [Event.unregisterDaemons "m-3", Event.deleteIdentity "m-3"] :=
  ⟨by decide,
   removeUser_unregisters_before_delete remEnvOk cfgM
     { initialized := true,
       users := [⟨"m-1", 100, "s1"⟩, ⟨"m-2", 101, "s2"⟩, ⟨"m-3", 102, "s3"⟩] }
     "m-3" "out" (by decide)⟩

/-! ## C9 — code sync excludes exactly the instance files -/

/-- C9: the `rsync` invocation of `syncServiceDir` carries exactly the
exclusion patterns `config.json`, `frpc.toml`, `prism-host` and `prism`
(for any source/destination paths); under the modelled rsync semantics every
excluded path is left unchanged in the member's service directory, and every
other path with a version in the bundle is replaced by the bundle's
version. -/
theorem syncServiceDir_excludes_instance_config (s d : String)
    (src dst : String → Option String) (f : String) :
    excludesOfArgs (syncServiceDirArgs s d) =
      ["config.json", "frpc.toml", "prism-host", "prism"] ∧
    (f ∈ (["config.json", "frpc.toml", "prism-host", "prism"] : List String) →
      syncServiceDirEffect src dst f = dst f) ∧
    (f ∉ (["config.json", "frpc.toml", "prism-host", "prism"] : List String) →
      ∀ v, src f = some v → syncServiceDirEffect src dst f = some v) := by
  refine ⟨?_, ?_, ?_⟩
  · have hs : ¬(s ++ "/" = "--exclude") := by
      intro h
      have h2 := congrArg (fun t => t.data.getLast?) h
      simp at h2
    simp [syncServiceDirArgs, excludesOfArgs, hs]
  · intro hf
    have hc : (excludesOfArgs (syncServiceDirArgs "src" "dst")).contains f = true := by
      have he : excludesOfArgs (syncServiceDirArgs "src" "dst") =
          ["config.json", "frpc.toml", "prism-host", "prism"] := rfl
      rw [he]
      simpa using hf
    simp only [syncServiceDirEffect, rsyncEffect, hc, if_true]
  · intro hf v hv
    have hc : (excludesOfArgs (syncServiceDirArgs "src" "dst")).contains f = false := by
      have he : excludesOfArgs (syncServiceDirArgs "src" "dst") =
          ["config.json", "frpc.toml", "prism-host", "prism"] := rfl
      rw [he]
      simpa using hf
    simp only [syncServiceDirEffect, rsyncEffect, hc, Bool.false_eq_true,
      if_false, hv]

/-- C9 witness: syncing `srcTree` over `dstTree` keeps the instance
`config.json` and replaces `app.js` with the bundle's version. -/
theorem syncServiceDir_excludes_instance_config_witness :
    syncServiceDirEffect srcTree dstTree "config.json" = some "oldcfg" ∧
    syncServiceDirEffect srcTree dstTree "app.js" = some "newapp" := by
  have h1 :=
    (syncServiceDir_excludes_instance_config "s" "d" srcTree dstTree
      "config.json").2.1 (by decide)
  have h2 :=
    (syncServiceDir_excludes_instance_config "s" "d" srcTree dstTree
      "app.js").2.2 (by decide) "newapp" rfl
  exact ⟨h1.trans rfl, h2⟩

/-! ## C1 — the suffix chosen by `AddUsers` after a removal -/

/-- C1, counterexample: with members `m-1`, `m-2`, `m-3`, removing the
highest-numbered member `m-3` and then running Add provisioning creates
`m-3` again — the freed suffix 3 is reused, and the next suffix is the
current manifest maximum plus one (3), not the prior maximum plus one
(4). -/
theorem addUsers_reuses_freed_highest_suffix :
    (RemoveUser remEnvOk cfgM
        { initialized := true,
          users := [⟨"m-1", 100, "s1"⟩, ⟨"m-2", 101, "s2"⟩, ⟨"m-3", 102, "s3"⟩] }
        "m-3" "out").2 =
      .ok { initialized := true,
            users := [⟨"m-1", 100, "s1"⟩, ⟨"m-2", 101, "s2"⟩] } ∧
    AddUsers okProvEnv cfgM
        { initialized := true,
          users := [⟨"m-1", 100, "s1"⟩, ⟨"m-2", 101, "s2"⟩] }
        1 "out" "p" =
      .ok ({ initialized := true,
             users := [⟨"m-1", 100, "s1"⟩, ⟨"m-2", 101, "s2"⟩, ⟨"m-3", 102, "sd"⟩] },
           "secrets") :=
  ⟨rfl, rfl⟩

/-! ## Healthy-environment projection lemmas -/

theorem healthy_secretsFile (sn ed : String) (pw : String → String)
    (sub : String → Int → String) :
    (healthyProvEnv sn ed pw sub).secretsFile = .ok sn := rfl

theorem healthy_archiveDir (sn ed : String) (pw : String → String)
    (sub : String → Int → String) :
    (healthyProvEnv sn ed pw sub).archiveDir = .ok ed := rfl

theorem healthy_userExists (sn ed : String) (pw : String → String)
    (sub : String → Int → String) (u : String) :
    (healthyProvEnv sn ed pw sub).userExists u = .ok false := rfl

theorem healthy_genPassword (sn ed : String) (pw : String → String)
    (sub : String → Int → String) (s : String) :
    (healthyProvEnv sn ed pw sub).genPassword s = .ok (pw s) := rfl

theorem healthy_createUser (sn ed : String) (pw : String → String)
    (sub : String → Int → String) (u p : String) :
    (healthyProvEnv sn ed pw sub).createUser u p = .ok () := rfl

theorem healthy_appendSecret (sn ed : String) (pw : String → String)
    (sub : String → Int → String) (f u p : String) :
    (healthyProvEnv sn ed pw sub).appendSecret f u p = .ok () := rfl

theorem healthy_perUserFiles (sn ed : String) (pw : String → String)
    (sub : String → Int → String) (u : String) (p : Int) :
    (healthyProvEnv sn ed pw sub).perUserFiles u p = .ok (sub u p) := rfl

/-- On an always-healthy OS layer the member loop succeeds and appends
exactly the members with indices `idx, idx+1, …, idx+k-1`. -/
theorem provisionLoop_healthy (sn ed sf : String) (pw : String → String)
    (sub : String → Int → String) (cfg : Config) (machineID : String) :
    ∀ (k : Nat) (idx : Int) (acc : List User),
      provisionLoop (healthyProvEnv sn ed pw sub) cfg sf machineID idx k acc =
        .ok (acc ++ (List.range k).map (fun (j : Nat) =>
          mkUserAt machineID cfg.startPort sub (idx + (j : Int)))) := by
  intro k
  induction k with
  | zero => intro idx acc; simp [provisionLoop]
  | succ n ih =>
      intro idx acc
      rw [provisionLoop]
      simp only [healthy_userExists, healthy_genPassword, healthy_createUser,
        healthy_appendSecret, healthy_perUserFiles, Bind.bind, Except.bind]
      rw [if_neg (by simp)]
      rw [ih]
      congr 1
      rw [List.append_assoc]
      congr 1
      rw [List.range_succ_eq_map, List.map_cons, List.map_map]
      rw [List.singleton_append]
      congr 1
      · simp [mkUserAt]
      · apply List.map_congr_left
        intro j _
        have harg : idx + 1 + (j : Int) = idx + ((j : Int) + 1) := by ring
        show mkUserAt machineID cfg.startPort sub (idx + 1 + (j : Int)) =
          mkUserAt machineID cfg.startPort sub (idx + ((j + 1 : Nat) : Int))
        rw [harg]
        push_cast
        rfl

/-! ## C7 — initial provisioning from an empty manifest -/

/-- C7: for every `N > 0`, initial provisioning from a zero-member manifest
on an always-healthy OS layer succeeds with exactly `N` members: member `j`
(0-based) is named `machineID-(j+1)` with port `startPort + (j+1) - 1 =
startPort + j`, so names carry suffixes `1..N` in order and ports are
`startPort .. startPort+N-1`. -/
theorem provisionUsers_initial_healthy (sn ed : String) (pw : String → String)
    (sub : String → Int → String) (cfg : Config) (init : Bool) (n : Int)
    (outputDir prismP : String) (hn : 0 < n)
    (hmid : trimSpace cfg.machineID ≠ "") (hout : outputDir ≠ "") :
    ProvisionUsers (healthyProvEnv sn ed pw sub) cfg
        { initialized := init, users := [] } n outputDir prismP =
      .ok ({ initialized := true,
             users := (List.range n.toNat).map (fun (j : Nat) =>
               mkUserAt (trimSpace cfg.machineID) cfg.startPort sub ((j : Int) + 1)) },
           sn) ∧
    ((List.range n.toNat).map (fun (j : Nat) =>
        mkUserAt (trimSpace cfg.machineID) cfg.startPort sub ((j : Int) + 1))).length
      = n.toNat ∧
    ((List.range n.toNat).map (fun (j : Nat) =>
        mkUserAt (trimSpace cfg.machineID) cfg.startPort sub ((j : Int) + 1))).map
        User.name
      = (List.range n.toNat).map (fun (j : Nat) =>
          trimSpace cfg.machineID ++ "-" ++ toString ((j : Int) + 1)) ∧
    ((List.range n.toNat).map (fun (j : Nat) =>
        mkUserAt (trimSpace cfg.machineID) cfg.startPort sub ((j : Int) + 1))).map
        User.port
      = (List.range n.toNat).map (fun (j : Nat) => cfg.startPort + (j : Int)) := by
  refine ⟨?_, by simp, ?_, ?_⟩
  · unfold ProvisionUsers
    rw [if_neg (by omega)]
    rw [if_neg (by simp)]
    rw [if_neg hmid, if_neg hout]
    simp only [healthy_secretsFile, healthy_archiveDir, Bind.bind, Except.bind]
    rw [provisionLoop_healthy]
    rw [List.nil_append]
    have hm :
        (List.range n.toNat).map (fun (j : Nat) =>
            mkUserAt (trimSpace cfg.machineID) cfg.startPort sub (1 + (j : Int))) =
          (List.range n.toNat).map (fun (j : Nat) =>
            mkUserAt (trimSpace cfg.machineID) cfg.startPort sub ((j : Int) + 1)) := by
      apply List.map_congr_left
      intro j _
      rw [add_comm 1 (j : Int)]
    rw [hm]
  · rw [List.map_map]
    apply List.map_congr_left
    intro j _
    rfl
  · rw [List.map_map]
    apply List.map_congr_left
    intro j _
    show cfg.startPort + ((j : Int) + 1) - 1 = cfg.startPort + (j : Int)
    ring

/-- C7 witness: three members on machine `m` from start port 100. -/
theorem provisionUsers_initial_healthy_witness :
    ProvisionUsers okProvEnv cfgM { initialized := false, users := [] } 3 "out" "p" =
      .ok ({ initialized := true,
             users := [⟨"m-1", 100, "sd"⟩, ⟨"m-2", 101, "sd"⟩, ⟨"m-3", 102, "sd"⟩] },
           "secrets") := by
  have h :=
    (provisionUsers_initial_healthy "secrets" "extract" (fun _ => "pw")
      (fun _ _ => "sd") cfgM false 3 "out" "p" (by decide) (by decide)
      (by decide)).1
  exact h.trans rfl

/-! ## C1 — next Add suffix versus removed maximum -/

/-- C1 (amended): Add provisioning continues from the highest numeric suffix
currently present in the manifest plus one (not from the member count): on
an always-healthy OS layer, adding `N` members appends exactly the suffixes
`max+1 .. max+N`.  Consequently removing a non-maximal member never causes a
suffix to be reused, but removing the highest-numbered member frees its
suffix, and the very next Add re-allocates it. -/
theorem addUsers_continues_from_manifest_max (sn ed : String)
    (pw : String → String) (sub : String → Int → String) (cfg : Config)
    (st : State) (n : Int) (outputDir prismP : String) (hn : 0 < n)
    (hne : st.users ≠ []) (hmid : trimSpace cfg.machineID ≠ "")
    (hout : outputDir ≠ "") :
    AddUsers (healthyProvEnv sn ed pw sub) cfg st n outputDir prismP =
      .ok ({ initialized := true,
             users := st.users ++ (List.range n.toNat).map (fun (j : Nat) =>
               mkUserAt (trimSpace cfg.machineID) cfg.startPort sub
                 (maxIndexOf (trimSpace cfg.machineID) st.users + 1 + (j : Int))) },
           sn) := by
  unfold AddUsers
  rw [if_neg (by omega)]
  rw [if_neg (by simpa using hne)]
  rw [if_neg hmid, if_neg hout]
  simp only [healthy_secretsFile, healthy_archiveDir, Bind.bind, Except.bind]
  rw [provisionLoop_healthy]

/-- C1 witness for the amended claim: manifest `[m-1, m-3]` (member `m-2`
was removed earlier), current maximum 3, so the next Add creates `m-4`. -/
theorem addUsers_continues_from_manifest_max_witness :
    AddUsers okProvEnv cfgM
        { initialized := true, users := [⟨"m-1", 100, "s1"⟩, ⟨"m-3", 102, "s3"⟩] }
        1 "out" "p" =
      .ok ({ initialized := true,
             users := [⟨"m-1", 100, "s1"⟩, ⟨"m-3", 102, "s3"⟩, ⟨"m-4", 103, "sd"⟩] },
           "secrets") := by
  have h :=
    addUsers_continues_from_manifest_max "secrets" "extract" (fun _ => "pw")
      (fun _ _ => "sd") cfgM
      { initialized := true, users := [⟨"m-1", 100, "s1"⟩, ⟨"m-3", 102, "s3"⟩] }
      1 "out" "p" (by decide) (by decide) (by decide) (by decide)
  exact h.trans rfl

/-! ## Retry-loop step lemmas -/

theorem fetchLoop_step_retryable (env : FetchEnv) (a : String)
    (fuel attempt backoff attempts : Nat) (delays : List Nat) (lastErr e : String)
    (hc : ¬(0 < attempt ∧ env.cancelBefore attempt = true))
    (hr : doFetchLatestRelease (env.attempt attempt) a = (.error e, true)) :
    fetchLoop env a (fuel + 1) attempt backoff delays attempts lastErr =
      fetchLoop env a fuel (attempt + 1)
        (if 0 < attempt then
          (if maxBackoff < backoff * 2 then maxBackoff else backoff * 2)
         else backoff)
        (if 0 < attempt then delays ++ [backoff] else delays)
        (attempts + 1) e := by
  rw [fetchLoop, if_neg hc, hr]
  rfl

theorem fetchLoop_step_success (env : FetchEnv) (a : String)
    (fuel attempt backoff attempts : Nat) (delays : List Nat) (lastErr tag : String)
    (hc : ¬(0 < attempt ∧ env.cancelBefore attempt = true)) (rty : Bool)
    (hr : doFetchLatestRelease (env.attempt attempt) a = (.ok tag, rty)) :
    fetchLoop env a (fuel + 1) attempt backoff delays attempts lastErr =
      { result := .ok tag,
        delays := if 0 < attempt then delays ++ [backoff] else delays,
        attempts := attempts + 1, canceled := false } := by
  rw [fetchLoop, if_neg hc, hr]

theorem fetchLoop_step_fatal (env : FetchEnv) (a : String)
    (fuel attempt backoff attempts : Nat) (delays : List Nat) (lastErr e : String)
    (hc : ¬(0 < attempt ∧ env.cancelBefore attempt = true))
    (hr : doFetchLatestRelease (env.attempt attempt) a = (.error e, false)) :
    fetchLoop env a (fuel + 1) attempt backoff delays attempts lastErr =
      { result := .error e,
        delays := if 0 < attempt then delays ++ [backoff] else delays,
        attempts := attempts + 1, canceled := false } := by
  rw [fetchLoop, if_neg hc, hr]
  rfl

theorem fetchLoop_step_cancel (env : FetchEnv) (a : String)
    (fuel attempt backoff attempts : Nat) (delays : List Nat) (lastErr : String)
    (hc : 0 < attempt ∧ env.cancelBefore attempt = true) :
    fetchLoop env a (fuel + 1) attempt backoff delays attempts lastErr =
      { result := .error "context canceled", delays := delays,
        attempts := attempts, canceled := true } := by
  rw [fetchLoop, if_pos hc]

/-- For a parsed, unpinned locator the resolver is the retry loop started at
attempt 0 with the initial backoff and `maxRetries + 1 = 4` iterations. -/
theorem fetchLatestRelease_loop (env : FetchEnv) (ghURL : String) (g : GhSpec)
    (hparse : parseGhURL ghURL = some g) (hpin : g.fixedTag = "") :
    fetchLatestRelease env ghURL = fetchLoop env g.assetName 4 0 1 [] 0 "" := by
  simp [fetchLatestRelease, hparse, hpin, maxRetries, initialBackoff]

theorem fetchLoop_attempts_le (env : FetchEnv) (a : String) :
    ∀ (fuel attempt backoff attempts : Nat) (delays : List Nat) (lastErr : String),
      (fetchLoop env a fuel attempt backoff delays attempts lastErr).attempts ≤
        attempts + fuel := by
  intro fuel
  induction fuel with
  | zero => intro attempt backoff attempts delays lastErr; simp [fetchLoop]
  | succ n ih =>
      intro attempt backoff attempts delays lastErr
      rw [fetchLoop]
      repeat' split
      all_goals simp
      all_goals exact le_trans (ih _ _ _ _ _) (by omega)

theorem fetchLoop_delays_le (env : FetchEnv) (a : String) :
    ∀ (fuel attempt backoff attempts : Nat) (delays : List Nat) (lastErr : String),
      backoff ≤ maxBackoff → (∀ d ∈ delays, d ≤ maxBackoff) →
      ∀ d ∈ (fetchLoop env a fuel attempt backoff delays attempts lastErr).delays,
        d ≤ maxBackoff := by
  intro fuel
  induction fuel with
  | zero =>
      intro attempt backoff attempts delays lastErr hb hd
      simpa [fetchLoop] using hd
  | succ n ih =>
      intro attempt backoff attempts delays lastErr hb hd
      rw [fetchLoop]
      split
      · exact hd
      · by_cases hA : 0 < attempt
        · simp only [if_pos hA]
          have hd' : ∀ d ∈ delays ++ [backoff], d ≤ maxBackoff := by
            intro d hdm
            rcases List.mem_append.mp hdm with h | h
            · exact hd d h
            · simp at h
              omega
          have hb' :
              (if maxBackoff < backoff * 2 then maxBackoff else backoff * 2) ≤
                maxBackoff := by
            split <;> omega
          split
          · exact hd'
          · split
            · exact ih _ _ _ _ _ hb' hd'
            · exact hd'
        · simp only [if_neg hA]
          split
          · exact hd
          · split
            · exact ih _ _ _ _ _ hb hd
            · exact hd

/-! ## C4 — resolver failure taxonomy, bounded exponential backoff -/

/-- C4: (1) exactly the transport failures, HTTP 429 and HTTP 5xx outcomes
are classified retryable; (2) a fatal first outcome (any other non-2xx, or
a well-formed response lacking the asset) fails after a single attempt with
no backoff wait; (3) three consecutive 429s followed by a success yield
exactly 3 retries with strictly increasing delays 1s, 2s, 4s and return the
tag; (4) at most `maxRetries + 1` attempts are ever made; (5) every waited
delay is capped at `maxBackoff`; (6) cancellation during a backoff wait
aborts the call immediately. -/
theorem fetchLatestRelease_retry_policy (env : FetchEnv) (ghURL tag : String)
    (g : GhSpec) (assets : List String)
    (hparse : parseGhURL ghURL = some g) (hpin : g.fixedTag = "") :
    (∀ o a, (doFetchLatestRelease o a).2 = true ↔
        ((∃ m, o = .netErr m) ∨
         (∃ st dec tg asl, o = .response st dec tg asl ∧ (st = 429 ∨ 500 ≤ st)))) ∧
    (∀ e, doFetchLatestRelease (env.attempt 0) g.assetName = (.error e, false) →
        fetchLatestRelease env ghURL =
          { result := .error e, delays := [], attempts := 1, canceled := false }) ∧
    ((∀ i, i < 3 → ∃ dec tg asl, env.attempt i = .response 429 dec tg asl) →
      (∀ i, env.cancelBefore i = false) →
      env.attempt 3 = .response 200 true tag assets →
      g.assetName ∈ assets →
      fetchLatestRelease env ghURL =
        { result := .ok tag, delays := [1, 2, 4], attempts := 4,
          canceled := false }) ∧
    ((fetchLatestRelease env ghURL).attempts ≤ maxRetries + 1) ∧
    (∀ d ∈ (fetchLatestRelease env ghURL).delays, d ≤ maxBackoff) ∧
    (∀ e, doFetchLatestRelease (env.attempt 0) g.assetName = (.error e, true) →
      env.cancelBefore 1 = true →
      fetchLatestRelease env ghURL =
        { result := .error "context canceled", delays := [], attempts := 1,
          canceled := true }) := by
  refine ⟨?_, ?_, ?_, ?_, ?_, ?_⟩
  · intro o a
    cases o with
    | netErr m => simp [doFetchLatestRelease]
    | response st dec tg asl =>
        simp only [doFetchLatestRelease]
        split_ifs with h1 h2 h3 h4 h5 <;> simp_all
  · intro e he
    rw [fetchLatestRelease_loop env ghURL g hparse hpin]
    rw [show (4 : Nat) = 3 + 1 from rfl]
    rw [fetchLoop_step_fatal env g.assetName 3 0 1 0 [] "" e (by simp) he]
    norm_num
  · intro hsc hnc h3 hmem
    obtain ⟨d0, t0, a0, h0⟩ := hsc 0 (by omega)
    obtain ⟨d1, t1, a1, h1⟩ := hsc 1 (by omega)
    obtain ⟨d2, t2, a2, h2⟩ := hsc 2 (by omega)
    have e0 : doFetchLatestRelease (env.attempt 0) g.assetName =
        (.error "GitHub API rate limited (429)", true) := by rw [h0]; rfl
    have e1 : doFetchLatestRelease (env.attempt 1) g.assetName =
        (.error "GitHub API rate limited (429)", true) := by rw [h1]; rfl
    have e2 : doFetchLatestRelease (env.attempt 2) g.assetName =
        (.error "GitHub API rate limited (429)", true) := by rw [h2]; rfl
    have hcontains : assets.contains g.assetName = true := by
      simpa using hmem
    have e3 : doFetchLatestRelease (env.attempt 3) g.assetName =
        (.ok tag, false) := by
      rw [h3]
      simp [doFetchLatestRelease, hcontains]
      exact hmem
    rw [fetchLatestRelease_loop env ghURL g hparse hpin]
    rw [show (4 : Nat) = 3 + 1 from rfl]
    rw [fetchLoop_step_retryable env g.assetName 3 0 1 0 [] ""
      "GitHub API rate limited (429)" (by simp) e0]
    norm_num
    rw [show (3 : Nat) = 2 + 1 from rfl]
    rw [fetchLoop_step_retryable env g.assetName 2 1 1 1 []
      "GitHub API rate limited (429)" "GitHub API rate limited (429)"
      (by simp [hnc 1]) e1]
    simp only [maxBackoff]
    norm_num
    rw [show (2 : Nat) = 1 + 1 from rfl]
    rw [fetchLoop_step_retryable env g.assetName 1 (1 + 1) (1 + 1) (1 + 1) [1]
      "GitHub API rate limited (429)" "GitHub API rate limited (429)"
      (by simp [hnc (1 + 1)]) e2]
    simp only [maxBackoff]
    norm_num
    rw [show (1 : Nat) = 0 + 1 from rfl]
    rw [fetchLoop_step_success env g.assetName 0 3 4 3 [0 + 1, 2]
      "GitHub API rate limited (429)" tag (by simp [hnc 3]) false e3]
    norm_num
  · rw [fetchLatestRelease_loop env ghURL g hparse hpin]
    simpa [maxRetries] using fetchLoop_attempts_le env g.assetName 4 0 1 0 [] ""
  · rw [fetchLatestRelease_loop env ghURL g hparse hpin]
    exact fetchLoop_delays_le env g.assetName 4 0 1 0 [] ""
      (by simp [maxBackoff]) (by simp)
  · intro e he hcb
    rw [fetchLatestRelease_loop env ghURL g hparse hpin]
    rw [show (4 : Nat) = 3 + 1 from rfl]
    rw [fetchLoop_step_retryable env g.assetName 3 0 1 0 [] "" e (by simp) he]
    norm_num
    rw [show (3 : Nat) = 2 + 1 from rfl]
    rw [fetchLoop_step_cancel env g.assetName 2 1 1 1 [] e ⟨by omega, hcb⟩]

/-- C4 witness: the three-429s-then-success scenario on a concrete
environment. -/
theorem fetchLatestRelease_retry_policy_witness :
    fetchLatestRelease feScenario "gh://o/r/a" =
      { result := .ok "v2", delays := [1, 2, 4], attempts := 4,
        canceled := false } :=
  (fetchLatestRelease_retry_policy feScenario "gh://o/r/a" "v2"
      { owner := "o", repo := "r", assetName := "a", fixedTag := "" } ["a"]
      rfl rfl).2.2.1
    (by intro i hi
        interval_cases i <;> exact ⟨true, "", [], rfl⟩)
    (fun _ => rfl) rfl (by decide)

/-! ## performUpdate structure lemmas -/

theorem perfFold (env : UpdateEnv) (so : String → Option UserServiceStatus) :
    ∀ (us : List User) (acc : List Event × Nat),
      us.foldl
        (fun (acc : List Event × Nat) u =>
          let r := performUpdateUser env so u
          (acc.1 ++ r.1, acc.2 + r.2)) acc =
      (acc.1 ++ (us.map fun u => (performUpdateUser env so u).1).flatten,
       acc.2 + (us.map fun u => (performUpdateUser env so u).2).sum) := by
  intro us
  induction us with
  | nil => intro acc; simp
  | cons u us ih => intro acc; simp [ih, List.append_assoc, Nat.add_assoc]

theorem performUpdate_ok (env : UpdateEnv) (st : State)
    (harchive : env.archive = .ok ()) :
    performUpdate env st =
      (Event.download ::
        (st.users.map fun u =>
          (performUpdateUser env (statusLookup (checkUserServices env.probe st)) u).1).flatten,
       .ok ((st.users.map fun u =>
          (performUpdateUser env (statusLookup (checkUserServices env.probe st)) u).2).sum)) := by
  unfold performUpdate
  rw [harchive]
  simp only [perfFold]
  simp

theorem performUpdateUser_events_cases (env : UpdateEnv)
    (so : String → Option UserServiceStatus) (u : User) :
    ∀ e ∈ (performUpdateUser env so u).1,
      e = Event.sync u.name ∨ e = Event.chown u.name ∨ e = Event.restart u.name := by
  unfold performUpdateUser
  repeat' split
  all_goals intro e he
  all_goals simp at he
  all_goals tauto

theorem performUpdateUser_restart_gated (env : UpdateEnv)
    (so : String → Option UserServiceStatus) (u : User) (n : String)
    (h : Event.restart n ∈ (performUpdateUser env so u).1) :
    n = u.name ∧ ∃ s, so u.name = some s ∧ s.serviceDirOK = true ∧
      s.portListening = true := by
  unfold performUpdateUser at h
  by_cases h1 : env.dirExists u.name = false
  · rw [if_pos h1] at h; simp at h
  · rw [if_neg h1] at h
    by_cases h2 : env.syncOK u.name = false
    · rw [if_pos h2] at h; simp at h
    · rw [if_neg h2] at h
      by_cases h3 : env.chownOK u.name = false
      · rw [if_pos h3] at h; simp at h
      · rw [if_neg h3] at h
        cases hso : so u.name with
        | none => rw [hso] at h; simp at h
        | some s =>
            rw [hso] at h
            simp only [] at h
            by_cases h4 : s.serviceDirOK = true ∧ s.portListening = true
            · rw [if_pos h4] at h
              have hn : n = u.name := by
                by_cases h5 : env.restartOK u.name
                · rw [if_pos h5] at h; simp at h; tauto
                · rw [if_neg h5] at h; simp at h; tauto
              exact ⟨hn, s, rfl, h4.1, h4.2⟩
            · rw [if_neg h4] at h; simp at h

theorem performUpdateUser_sync_mem (env : UpdateEnv)
    (so : String → Option UserServiceStatus) (u : User)
    (h1 : env.dirExists u.name = true) (h2 : env.syncOK u.name = true) :
    Event.sync u.name ∈ (performUpdateUser env so u).1 ∧
    (env.chownOK u.name = true →
      Event.chown u.name ∈ (performUpdateUser env so u).1) := by
  unfold performUpdateUser
  rw [if_neg (by simp [h1]), if_neg (by simp [h2])]
  by_cases h3 : env.chownOK u.name = false
  · rw [if_pos h3]
    refine ⟨by simp, ?_⟩
    intro hc
    rw [hc] at h3
    simp at h3
  · rw [if_neg h3]
    cases so u.name with
    | none => exact ⟨by simp, fun _ => by simp⟩
    | some s =>
        simp only []
        by_cases h4 : s.serviceDirOK = true ∧ s.portListening = true
        · rw [if_pos h4]
          split <;> exact ⟨by simp, fun _ => by simp⟩
        · rw [if_neg h4]
          exact ⟨by simp, fun _ => by simp⟩

theorem performUpdate_restart_gated (env : UpdateEnv) (st : State) (n : String)
    (h : Event.restart n ∈ (performUpdate env st).1) :
    ∃ s, statusLookup (checkUserServices env.probe st) n = some s ∧
      s.serviceDirOK = true ∧ s.portListening = true := by
  cases harch : env.archive with
  | error e =>
      unfold performUpdate at h
      rw [harch] at h
      simp at h
  | ok uv =>
      cases uv
      rw [performUpdate_ok env st harch] at h
      simp only [List.mem_cons] at h
      rcases h with h | h
      · simp at h
      · rw [List.mem_flatten] at h
        obtain ⟨l, hl, hmem⟩ := h
        rw [List.mem_map] at hl
        obtain ⟨u, hu, rfl⟩ := hl
        obtain ⟨hn, s, hso, hd, hp⟩ :=
          performUpdateUser_restart_gated env _ u n hmem
        exact ⟨s, by rw [hn]; exact hso, hd, hp⟩

theorem performUpdate_no_writeLedger (env : UpdateEnv) (st : State) (t : String) :
    Event.writeLedger t ∉ (performUpdate env st).1 := by
  intro h
  cases harch : env.archive with
  | error e =>
      unfold performUpdate at h
      rw [harch] at h
      simp at h
  | ok uv =>
      cases uv
      rw [performUpdate_ok env st harch] at h
      simp only [List.mem_cons] at h
      rcases h with h | h
      · simp at h
      · rw [List.mem_flatten] at h
        obtain ⟨l, hl, hmem⟩ := h
        rw [List.mem_map] at hl
        obtain ⟨u, hu, rfl⟩ := hl
        rcases performUpdateUser_events_cases env _ u _ hmem with h | h | h <;>
          simp at h

/-! ## UpdateUserCode structure lemmas -/

theorem updateUserCodeLoop_events (env : UpdateEnv)
    (so : String → Option UserServiceStatus) :
    ∀ (us : List User) (evs : List Event), ∃ extra,
      (updateUserCodeLoop env so us evs).1 = evs ++ extra ∧
      (∀ n, Event.restart n ∈ extra →
        ∃ s, so n = some s ∧ s.serviceDirOK = true ∧ s.portListening = true) := by
  intro us
  induction us with
  | nil =>
      intro evs
      exact ⟨[], by simp [updateUserCodeLoop], by simp⟩
  | cons u us ih =>
      intro evs
      rw [updateUserCodeLoop]
      by_cases h1 : env.dirExists u.name = false
      · rw [if_pos h1]
        exact ⟨[], by simp, by simp⟩
      rw [if_neg h1]
      by_cases h2 : env.syncOK u.name = false
      · rw [if_pos h2]
        exact ⟨[], by simp, by simp⟩
      rw [if_neg h2]
      by_cases h3 : env.chownOK u.name = false
      · rw [if_pos h3]
        refine ⟨[Event.sync u.name], by simp, ?_⟩
        intro n hn
        simp at hn
      rw [if_neg h3]
      cases hso : so u.name with
      | none =>
          simp only []
          obtain ⟨extra, heq, hres⟩ :=
            ih (evs ++ [Event.sync u.name, Event.chown u.name])
          refine ⟨[Event.sync u.name, Event.chown u.name] ++ extra, ?_, ?_⟩
          · rw [heq]; simp
          · intro n hn
            rcases List.mem_append.mp hn with hn | hn
            · simp at hn
            · exact hres n hn
      | some s =>
          simp only []
          by_cases h4 : s.serviceDirOK = true ∧ s.portListening = true
          · rw [if_pos h4]
            by_cases h5 : env.restartOK u.name = true
            · rw [if_pos h5]
              obtain ⟨extra, heq, hres⟩ :=
                ih (evs ++
                  [Event.sync u.name, Event.chown u.name, Event.restart u.name])
              refine ⟨[Event.sync u.name, Event.chown u.name,
                Event.restart u.name] ++ extra, ?_, ?_⟩
              · rw [heq]; simp
              · intro n hn
                rcases List.mem_append.mp hn with hn | hn
                · simp at hn
                  exact ⟨s, by rw [hn]; exact hso, h4.1, h4.2⟩
                · exact hres n hn
            · rw [if_neg h5]
              refine ⟨[Event.sync u.name, Event.chown u.name,
                Event.restart u.name], by simp, ?_⟩
              intro n hn
              simp at hn
              exact ⟨s, by rw [hn]; exact hso, h4.1, h4.2⟩
          · rw [if_neg h4]
            obtain ⟨extra, heq, hres⟩ :=
              ih (evs ++ [Event.sync u.name, Event.chown u.name])
            refine ⟨[Event.sync u.name, Event.chown u.name] ++ extra, ?_, ?_⟩
            · rw [heq]; simp
            · intro n hn
              rcases List.mem_append.mp hn with hn | hn
              · simp at hn
              · exact hres n hn

theorem updateUserCodeLoop_mono (env : UpdateEnv)
    (so : String → Option UserServiceStatus) (us : List User)
    (evs : List Event) (e : Event) (he : e ∈ evs) :
    e ∈ (updateUserCodeLoop env so us evs).1 := by
  obtain ⟨extra, heq, _⟩ := updateUserCodeLoop_events env so us evs
  rw [heq]
  exact List.mem_append.mpr (Or.inl he)

theorem updateUserCodeLoop_success_sync (env : UpdateEnv)
    (so : String → Option UserServiceStatus) :
    ∀ (us : List User) (evs : List Event),
      (updateUserCodeLoop env so us evs).2 = .ok () →
      ∀ u ∈ us, Event.sync u.name ∈ (updateUserCodeLoop env so us evs).1 := by
  intro us
  induction us with
  | nil => intro evs _ u hu; simp at hu
  | cons v us ih =>
      intro evs hok u hu
      rw [updateUserCodeLoop] at hok ⊢
      by_cases h1 : env.dirExists v.name = false
      · rw [if_pos h1] at hok; simp at hok
      rw [if_neg h1] at hok ⊢
      by_cases h2 : env.syncOK v.name = false
      · rw [if_pos h2] at hok; simp at hok
      rw [if_neg h2] at hok ⊢
      by_cases h3 : env.chownOK v.name = false
      · rw [if_pos h3] at hok; simp at hok
      rw [if_neg h3] at hok ⊢
      cases hso : so v.name with
      | none =>
          rw [hso] at hok
          simp only [] at hok ⊢
          rcases List.mem_cons.mp hu with rfl | hu'
          · exact updateUserCodeLoop_mono env so us _ _ (by simp)
          · exact ih _ hok u hu'
      | some s =>
          rw [hso] at hok
          simp only [] at hok ⊢
          by_cases h4 : s.serviceDirOK = true ∧ s.portListening = true
          · rw [if_pos h4] at hok ⊢
            by_cases h5 : env.restartOK v.name = true
            · rw [if_pos h5] at hok ⊢
              rcases List.mem_cons.mp hu with rfl | hu'
              · exact updateUserCodeLoop_mono env so us _ _ (by simp)
              · exact ih _ hok u hu'
            · rw [if_neg h5] at hok; simp at hok
          · rw [if_neg h4] at hok ⊢
            rcases List.mem_cons.mp hu with rfl | hu'
            · exact updateUserCodeLoop_mono env so us _ _ (by simp)
            · exact ih _ hok u hu'

theorem UpdateUserCode_run (env : UpdateEnv) (st : State) (outputDir : String)
    (hz : st.users.length ≠ 0) (ho : trimSpace outputDir ≠ "")
    (harch : env.archive = .ok ()) :
    UpdateUserCode env st outputDir =
      (Event.download ::
        (updateUserCodeLoop env
          (statusLookup (checkUserServices env.probe st)) st.users []).1,
       match (updateUserCodeLoop env
          (statusLookup (checkUserServices env.probe st)) st.users []).2 with
       | .error e => .error e
       | .ok _ => .ok { initialized := true, users := st.users }) := by
  unfold UpdateUserCode
  rw [if_neg hz, if_neg ho, harch]
  simp only []
  cases h2 : (updateUserCodeLoop env
      (statusLookup (checkUserServices env.probe st)) st.users []).2 <;>
    simp [h2]

theorem UpdateUserCode_restart_gated (env : UpdateEnv) (st : State)
    (outputDir : String) (n : String)
    (h : Event.restart n ∈ (UpdateUserCode env st outputDir).1) :
    ∃ s, statusLookup (checkUserServices env.probe st) n = some s ∧
      s.serviceDirOK = true ∧ s.portListening = true := by
  unfold UpdateUserCode at h
  by_cases hz : st.users.length = 0
  · rw [if_pos hz] at h; simp at h
  rw [if_neg hz] at h
  by_cases ho : trimSpace outputDir = ""
  · rw [if_pos ho] at h; simp at h
  rw [if_neg ho] at h
  cases harch : env.archive with
  | error e => rw [harch] at h; simp at h
  | ok uv =>
      rw [harch] at h
      simp only [] at h
      obtain ⟨extra, heq, hres⟩ :=
        updateUserCodeLoop_events env
          (statusLookup (checkUserServices env.probe st)) st.users []
      split at h <;>
      · simp only [List.mem_cons] at h
        rcases h with h | h
        · simp at h
        · rw [heq] at h
          simp only [List.nil_append] at h
          exact hres n h

theorem UpdateUserCode_success_sync (env : UpdateEnv) (st : State)
    (outputDir : String) (st' : State)
    (hok : (UpdateUserCode env st outputDir).2 = .ok st') :
    ∀ u ∈ st.users, Event.sync u.name ∈ (UpdateUserCode env st outputDir).1 := by
  intro u hu
  have hz : st.users.length ≠ 0 := by
    intro hz0
    unfold UpdateUserCode at hok
    rw [if_pos hz0] at hok
    simp at hok
  have ho : trimSpace outputDir ≠ "" := by
    intro ho0
    unfold UpdateUserCode at hok
    rw [if_neg hz, if_pos ho0] at hok
    simp at hok
  cases harch : env.archive with
  | error e =>
      unfold UpdateUserCode at hok
      rw [if_neg hz, if_neg ho, harch] at hok
      simp at hok
  | ok uv =>
      cases uv
      rw [UpdateUserCode_run env st outputDir hz ho harch] at hok ⊢
      cases hloop : (updateUserCodeLoop env
          (statusLookup (checkUserServices env.probe st)) st.users []).2 with
      | error e => rw [hloop] at hok; simp at hok
      | ok u2 =>
          cases u2
          simp only [List.mem_cons]
          right
          exact updateUserCodeLoop_success_sync env _ st.users [] hloop u hu

/-! ## C6, C2, C5 — update orchestration -/

/-- C6: during an update cycle a member whose probed status reports the port
not listening is still synced (and its ownership fixed) but never receives a
restart signal; a restart signal is only ever issued to a member whose
probed status reports the service directory OK and the port listening.  The
same gating holds for the interactive `UpdateUserCode` path, which on
success has synced every manifest member. -/
theorem update_restart_only_listening (env : UpdateEnv) (st : State)
    (outputDir : String) :
    (∀ n, Event.restart n ∈ (performUpdate env st).1 →
      ∃ s, statusLookup (checkUserServices env.probe st) n = some s ∧
        s.serviceDirOK = true ∧ s.portListening = true) ∧
    (∀ u ∈ st.users, env.archive = .ok () →
      env.dirExists u.name = true → env.syncOK u.name = true →
      Event.sync u.name ∈ (performUpdate env st).1 ∧
      (env.chownOK u.name = true → Event.chown u.name ∈ (performUpdate env st).1)) ∧
    (∀ n s, statusLookup (checkUserServices env.probe st) n = some s →
      s.portListening = false → Event.restart n ∉ (performUpdate env st).1) ∧
    (∀ n, Event.restart n ∈ (UpdateUserCode env st outputDir).1 →
      ∃ s, statusLookup (checkUserServices env.probe st) n = some s ∧
        s.serviceDirOK = true ∧ s.portListening = true) ∧
    (∀ n s, statusLookup (checkUserServices env.probe st) n = some s →
      s.portListening = false →
      Event.restart n ∉ (UpdateUserCode env st outputDir).1) ∧
    (∀ st', (UpdateUserCode env st outputDir).2 = .ok st' →
      ∀ u ∈ st.users, Event.sync u.name ∈ (UpdateUserCode env st outputDir).1) := by
  refine ⟨performUpdate_restart_gated env st, ?_, ?_,
    UpdateUserCode_restart_gated env st outputDir, ?_,
    fun st' hok => UpdateUserCode_success_sync env st outputDir st' hok⟩
  · intro u hu harch h1 h2
    rw [performUpdate_ok env st harch]
    obtain ⟨hs, hcimp⟩ :=
      performUpdateUser_sync_mem env
        (statusLookup (checkUserServices env.probe st)) u h1 h2
    constructor
    · simp only [List.mem_cons]
      right
      rw [List.mem_flatten]
      exact ⟨_, List.mem_map.mpr ⟨u, hu, rfl⟩, hs⟩
    · intro hc
      simp only [List.mem_cons]
      right
      rw [List.mem_flatten]
      exact ⟨_, List.mem_map.mpr ⟨u, hu, rfl⟩, hcimp hc⟩
  · intro n s hl hpl h
    obtain ⟨s', hl', _, hp'⟩ := performUpdate_restart_gated env st n h
    rw [hl] at hl'
    injection hl' with hs'
    rw [← hs'] at hp'
    rw [hpl] at hp'
    exact Bool.false_ne_true hp'
  · intro n s hl hpl h
    obtain ⟨s', hl', _, hp'⟩ := UpdateUserCode_restart_gated env st outputDir n h
    rw [hl] at hl'
    injection hl' with hs'
    rw [← hs'] at hp'
    rw [hpl] at hp'
    exact Bool.false_ne_true hp'

/-- Every reconciliation cycle either writes no ledger entry at all, or ran
`performUpdate` and it reported at least one successfully updated member. -/
theorem checkAndUpdate_shape (env : UpdateEnv) :
    (∀ t, Event.writeLedger t ∉ (checkAndUpdate env).1) ∨
    (∃ cfg st c, env.loadConfig = .ok cfg ∧ env.loadState = .ok st ∧
      (performUpdate env st).2 = .ok c ∧ 0 < c) := by
  unfold checkAndUpdate
  cases hc : env.loadConfig with
  | error e => left; intro t ht; simp at ht
  | ok cfg =>
  cases hs : env.loadState with
  | error e => left; intro t ht; simp at ht
  | ok st =>
  try simp only []
  by_cases hz : st.users.length = 0
  · rw [if_pos hz]; left; intro t ht; simp at ht
  rw [if_neg hz]
  by_cases ha : trimSpace cfg.archiveURL = ""
  · rw [if_pos ha]; left; intro t ht; simp at ht
  rw [if_neg ha]
  by_cases hg : hasPre (trimSpace cfg.archiveURL) "gh://" = false
  · rw [if_pos hg]; left; intro t ht; simp at ht
  rw [if_neg hg]
  try simp only []
  cases hf : (fetchLatestRelease env.fetch (trimSpace cfg.archiveURL)).result with
  | error e => left; intro t ht; simp at ht
  | ok latest =>
  try simp only []
  by_cases hl0 : latest = ""
  · rw [if_pos hl0]; left; intro t ht; simp at ht
  rw [if_neg hl0]
  cases hr : env.readVersion with
  | notExist => left; intro t ht; simp at ht
  | readErr m => left; intro t ht; simp at ht
  | content data =>
  try simp only []
  by_cases hcur : trimSpace data = latest
  · rw [if_pos hcur]; left; intro t ht; simp at ht
  rw [if_neg hcur]
  cases hp : (performUpdate env st).2 with
  | error e =>
      left
      intro t ht
      simp only [List.mem_append] at ht
      rcases ht with ht | ht
      · simp at ht
      · exact performUpdate_no_writeLedger env st t ht
  | ok c =>
  try simp only []
  by_cases hc0 : c = 0
  · rw [if_pos hc0]
    left
    intro t ht
    simp only [List.mem_append] at ht
    rcases ht with ht | ht
    · simp at ht
    · exact performUpdate_no_writeLedger env st t ht
  · right
    exact ⟨cfg, st, c, rfl, rfl, hp, by omega⟩

/-- C2: the version ledger is advanced only when at least one member was
updated successfully; a cycle in which `performUpdate` reports zero updated
members returns the hard failure `no users were updated successfully` and
emits no ledger write, so the next tick retries from the same state. -/
theorem checkAndUpdate_ledger_gate (env : UpdateEnv) :
    (∀ t, Event.writeLedger t ∈ (checkAndUpdate env).1 →
      ∃ cfg st c, env.loadConfig = .ok cfg ∧ env.loadState = .ok st ∧
        (performUpdate env st).2 = .ok c ∧ 0 < c) ∧
    (∀ cfg st latest data,
      env.loadConfig = .ok cfg → env.loadState = .ok st →
      st.users.length ≠ 0 →
      hasPre (trimSpace cfg.archiveURL) "gh://" = true →
      (fetchLatestRelease env.fetch (trimSpace cfg.archiveURL)).result = .ok latest →
      latest ≠ "" →
      env.readVersion = .content data →
      trimSpace data ≠ latest →
      (performUpdate env st).2 = .ok 0 →
      (checkAndUpdate env).2 = .error "no users were updated successfully" ∧
      ∀ t, Event.writeLedger t ∉ (checkAndUpdate env).1) := by
  constructor
  · intro t ht
    rcases checkAndUpdate_shape env with hnot | hex
    · exact absurd ht (hnot t)
    · exact hex
  · intro cfg st latest data hc hs hz hg hf hl0 hr hcur hp0
    have ha : trimSpace cfg.archiveURL ≠ "" := by
      intro h0
      rw [h0] at hg
      exact absurd hg (by decide)
    have hnorm : checkAndUpdate env =
        ((List.range
            (fetchLatestRelease env.fetch (trimSpace cfg.archiveURL)).attempts).map
              Event.httpAttempt ++ (performUpdate env st).1,
         .error "no users were updated successfully") := by
      unfold checkAndUpdate
      rw [hc, hs]
      try simp only []
      rw [if_neg hz, if_neg ha, if_neg (by simp [hg])]
      try simp only []
      rw [hf]
      try simp only []
      rw [if_neg hl0, hr]
      try simp only []
      rw [if_neg hcur]
      try simp only []
      rw [hp0]
      simp
    rw [hnorm]
    refine ⟨rfl, ?_⟩
    intro t ht
    simp only [List.mem_append] at ht
    rcases ht with ht | ht
    · simp at ht
    · exact performUpdate_no_writeLedger env st t ht

/-- C5: for every ledger state, when the bundle locator carries a pinned
`@tag`, tag resolution returns the empty-string sentinel with zero HTTP
attempts (no network contact), and the whole reconciliation cycle is a
no-op: no download, no member sync or restart, no ledger write, success. -/
theorem pinned_locator_cycle_noop (env : UpdateEnv) (cfg : Config) (st : State)
    (g : GhSpec)
    (hc : env.loadConfig = .ok cfg) (hs : env.loadState = .ok st)
    (hgh : hasPre (trimSpace cfg.archiveURL) "gh://" = true)
    (hparse : parseGhURL (trimSpace cfg.archiveURL) = some g)
    (hpin : g.fixedTag ≠ "") :
    fetchLatestRelease env.fetch (trimSpace cfg.archiveURL) =
      { result := .ok "", delays := [], attempts := 0, canceled := false } ∧
    checkAndUpdate env = ([], .ok ()) := by
  have hfetch : fetchLatestRelease env.fetch (trimSpace cfg.archiveURL) =
      { result := .ok "", delays := [], attempts := 0, canceled := false } := by
    unfold fetchLatestRelease
    rw [hparse]
    simp only []
    rw [if_pos hpin]
  refine ⟨hfetch, ?_⟩
  have ha : trimSpace cfg.archiveURL ≠ "" := by
    intro h0
    rw [h0] at hgh
    exact absurd hgh (by decide)
  unfold checkAndUpdate
  rw [hc, hs]
  try simp only []
  by_cases hz : st.users.length = 0
  · rw [if_pos hz]
  · rw [if_neg hz, if_neg ha, if_neg (by simp [hgh])]
    try simp only []
    rw [hfetch]
    simp

/-- C2 witness: with every member's sync failing, the cycle fails and the
ledger is untouched. -/
theorem checkAndUpdate_ledger_gate_witness :
    (checkAndUpdate updEnvAllSyncFail).2 =
      .error "no users were updated successfully" ∧
    Event.writeLedger "v2" ∉ (checkAndUpdate updEnvAllSyncFail).1 := by
  have h := (checkAndUpdate_ledger_gate updEnvAllSyncFail).2 cfgM
    { initialized := true, users := [⟨"m-1", 100, "s1"⟩] } "v2" "v1"
    rfl rfl (by decide) (by decide) rfl (by decide) rfl (by decide) rfl
  exact ⟨h.1, h.2 "v2"⟩

/-- C5 witness. -/
theorem pinned_locator_cycle_noop_witness :
    fetchLatestRelease updEnvPinned.fetch
        (trimSpace ({ cfgM with archiveURL := "gh://o/r/a@v1" } : Config).archiveURL) =
      { result := .ok "", delays := [], attempts := 0, canceled := false } ∧
    checkAndUpdate updEnvPinned = ([], .ok ()) :=
  pinned_locator_cycle_noop updEnvPinned
    { cfgM with archiveURL := "gh://o/r/a@v1" }
    { initialized := true, users := [⟨"m-1", 100, "s1"⟩] }
    { owner := "o", repo := "r", assetName := "a", fixedTag := "v1" }
    rfl rfl (by decide) (by decide) (by decide)

/-- C6 witness: the sole member's port is not listening, so it is synced
and chowned but not restarted. -/
theorem update_restart_only_listening_witness :
    Event.sync "m-1" ∈
      (performUpdate (updEnv [])
        { initialized := true, users := [⟨"m-1", 100, "s1"⟩] }).1 ∧
    Event.chown "m-1" ∈
      (performUpdate (updEnv [])
        { initialized := true, users := [⟨"m-1", 100, "s1"⟩] }).1 ∧
    Event.restart "m-1" ∉
      (performUpdate (updEnv [])
        { initialized := true, users := [⟨"m-1", 100, "s1"⟩] }).1 := by
  have h := update_restart_only_listening (updEnv [])
    { initialized := true, users := [⟨"m-1", 100, "s1"⟩] } "out"
  obtain ⟨hsync, hchown⟩ := h.2.1 ⟨"m-1", 100, "s1"⟩ (by simp) rfl rfl rfl
  exact ⟨hsync, hchown rfl,
    h.2.2.1 "m-1"
      { name := "m-1", port := 100, subdomain := "s1",
        serviceDirOK := true, portListening := false } (by decide) rfl⟩

/-! ## C10 — every successful mutation leaves the manifest initialized -/

/-- C10: every successful manifest-mutating operation — `ProvisionUsers`,
`AddUsers`, `RemoveUser` and `UpdateUserCode` — returns a state with
`Initialized = true`; in particular removing the last remaining member
yields an initialized manifest with zero members, never resetting the
flag. -/
theorem mutations_set_initialized :
    (∀ (env : ProvEnv) (cfg : Config) (st : State) (n : Int) (o p : String)
      (st' : State) (f : String),
      ProvisionUsers env cfg st n o p = .ok (st', f) → st'.initialized = true) ∧
    (∀ (env : ProvEnv) (cfg : Config) (st : State) (n : Int) (o p : String)
      (st' : State) (f : String),
      AddUsers env cfg st n o p = .ok (st', f) → st'.initialized = true) ∧
    (∀ (env : RemoveEnv) (cfg : Config) (st : State) (u o : String)
      (st' : State),
      (RemoveUser env cfg st u o).2 = .ok st' → st'.initialized = true) ∧
    (∀ (env : UpdateEnv) (st : State) (o : String) (st' : State),
      (UpdateUserCode env st o).2 = .ok st' → st'.initialized = true) ∧
    (∀ (env : RemoveEnv) (cfg : Config) (st : State) (u o : String)
      (st' : State),
      st.users.length = 1 → (RemoveUser env cfg st u o).2 = .ok st' →
      st'.users = [] ∧ st'.initialized = true) := by
  refine ⟨?_, ?_, ?_, ?_, ?_⟩
  · intro env cfg st n o p st' f h
    simp only [ProvisionUsers, Bind.bind, Except.bind] at h
    repeat' split at h
    all_goals simp_all
    all_goals (obtain ⟨h1, h2⟩ := h; subst h1; rfl)
  · intro env cfg st n o p st' f h
    simp only [AddUsers, Bind.bind, Except.bind] at h
    repeat' split at h
    all_goals simp_all
    all_goals (obtain ⟨h1, h2⟩ := h; subst h1; rfl)
  · intro env cfg st u o st' h
    simp only [RemoveUser] at h
    repeat' split at h
    all_goals simp_all
    all_goals (subst h; rfl)
  · intro env st o st' h
    simp only [UpdateUserCode] at h
    repeat' split at h
    all_goals simp_all
    all_goals (subst h; rfl)
  · intro env cfg st u o st' hlen h
    cases hu : st.users with
    | nil => rw [hu] at hlen; simp at hlen
    | cons x xs =>
        cases xs with
        | cons y ys => rw [hu] at hlen; simp at hlen
        | nil =>
            simp only [RemoveUser] at h
            rw [hu] at h
            repeat' split at h
            all_goals simp_all
            all_goals
              subst h
              rename_i hidx hdel
              simp only [indexOfName] at hidx
              refine ⟨?_, rfl⟩
              by_cases hn : x.name = u
              · rw [if_pos hn] at hidx
                simp at hidx
                rw [← hidx]
                rfl
              · rw [if_neg hn] at hidx
                simp at hidx

/-- C10 witness. -/
theorem mutations_set_initialized_witness :
    (ProvisionUsers okProvEnv cfgM { initialized := false, users := [] } 1 "out" "p" =
        .ok ({ initialized := true, users := [⟨"m-1", 100, "sd"⟩] }, "secrets") ∧
      ({ initialized := true, users := [⟨"m-1", 100, "sd"⟩] } : State).initialized = true) ∧
    (AddUsers okProvEnv cfgM { initialized := false, users := [⟨"m-1", 100, "s1"⟩] }
        1 "out" "p" =
        .ok ({ initialized := true,
               users := [⟨"m-1", 100, "s1"⟩, ⟨"m-2", 101, "sd"⟩] }, "secrets") ∧
      ({ initialized := true,
         users := [⟨"m-1", 100, "s1"⟩, ⟨"m-2", 101, "sd"⟩] } : State).initialized = true) ∧
    ((RemoveUser remEnvOk cfgM { initialized := true, users := [⟨"m-1", 100, "s1"⟩] }
        "m-1" "out").2 = .ok { initialized := true, users := [] } ∧
      ({ initialized := true, users := [] } : State).users = [] ∧
      ({ initialized := true, users := [] } : State).initialized = true) ∧
    ((UpdateUserCode (updEnv [100])
        { initialized := false, users := [⟨"m-1", 100, "s1"⟩] } "out").2 =
        .ok { initialized := true, users := [⟨"m-1", 100, "s1"⟩] } ∧
      ({ initialized := true, users := [⟨"m-1", 100, "s1"⟩] } : State).initialized = true) := by
  refine ⟨⟨rfl, ?_⟩, ⟨rfl, ?_⟩, ⟨rfl, ?_⟩, ⟨rfl, ?_⟩⟩
  · exact mutations_set_initialized.1 okProvEnv cfgM
      { initialized := false, users := [] } 1 "out" "p"
      { initialized := true, users := [⟨"m-1", 100, "sd"⟩] } "secrets" rfl
  · exact mutations_set_initialized.2.1 okProvEnv cfgM
      { initialized := false, users := [⟨"m-1", 100, "s1"⟩] } 1 "out" "p"
      { initialized := true, users := [⟨"m-1", 100, "s1"⟩, ⟨"m-2", 101, "sd"⟩] }
      "secrets" rfl
  · exact mutations_set_initialized.2.2.2.2 remEnvOk cfgM
      { initialized := true, users := [⟨"m-1", 100, "s1"⟩] } "m-1" "out"
      { initialized := true, users := [] } rfl rfl
  · exact mutations_set_initialized.2.2.2.1 (updEnv [100])
      { initialized := false, users := [⟨"m-1", 100, "s1"⟩] } "out"
      { initialized := true, users := [⟨"m-1", 100, "s1"⟩] } rfl

end Prism
